import Mathlib

/-!
Shallow embedding of the off-chain coordination code of tachyon-contracts:
`src/offchain/scheduler.py` (job discovery loop, assignment policy,
transaction submitter) and `src/offchain/provider_client.py` (provider
poll loop, workload runner, transaction submitter).

External collaborators (the RPC node, the random number generator, the
keccak hash of the web3 library, wall-clock time) are passed in as explicit
parameters; each Python `try/except` boundary is modelled by an
`Except`-valued outcome parameter describing what the external call did.
Side effects that the claims talk about (submitting a transaction, reading
the escrow funding state, logging) are recorded as an explicit trace of
`Action`s, in the order the source performs them.
-/

deriving instance DecidableEq for Except

namespace Tachyon

/-- Python exception values that the off-chain code can raise or observe:
`ValueError` (bad input / broadcast rejection), `TimeExhausted` (receipt
wait timeout), `RuntimeError` (raised by `send_tx` on a failed receipt),
`AssertionError` (the `assert acct is not None` in scheduler `send_tx`),
and a connection-style error for failing RPC reads. -/
inductive Err where
  | valueError (msg : String)
  | timeExhausted (msg : String)
  | runtimeError (msg : String)
  | assertionError (msg : String)
  | connectionError (msg : String)
deriving DecidableEq

/-- Transaction receipt as used by the code: only `status` is inspected
(`receipt.status != 1`); `txHash` stands for the rest of the payload. -/
structure Receipt where
  status : Nat
  txHash : Nat
deriving DecidableEq

/-- How the ledger responds to one signed-transaction submission attempt:
`send_raw_transaction` raises (broadcast rejected), or
`wait_for_transaction_receipt` raises (timeout waiting for inclusion), or
the transaction is mined and a receipt comes back. -/
inductive TxWorld where
  | rejected (e : Err)
  | timedOut (e : Err)
  | mined (r : Receipt)
deriving DecidableEq

/-- A local signing account (`eth_account.LocalAccount`); only its
presence and address matter to the embedded code. -/
structure Account where
  address : Nat
deriving DecidableEq

/-- Observable steps of the off-chain code, in source order.  Log lines are
recorded as tagged constructors carrying the job id they mention. -/
inductive Action where
  | txBuild
  | broadcastCall
  | auditAttempt (jobId : Nat)
  | logAuditEnabled (jobId : Nat)
  | logAuditFailed (jobId : Nat)
  | isFundedCall (jobId : Nat)
  | logNotFunded (jobId : Nat)
  | logEscrowCheckFailed (jobId : Nat)
  | assignAttempt (jobId : Nat)
  | logAssigned (jobId : Nat)
  | logAssignFailed (jobId : Nat)
  | discovered (blk : Nat) (jobId : Nat)
  | logLoopError
  | workloadRun (jobId : Nat)
  | logSubmitting (jobId : Nat)
  | completeAttempt (jobId : Nat) (resultHash : Nat) (cid : String)
deriving DecidableEq

/-- Shared tail of both `send_tx` implementations: outcome of broadcasting
the signed transaction and waiting for its receipt, then
`if receipt.status != 1: raise RuntimeError('Transaction failed')`,
`return receipt`. -/
def txOutcome : TxWorld → Except Err Receipt
  | .rejected e => .error e
  | .timedOut e => .error e
  | .mined r => if r.status ≠ 1 then .error (.runtimeError "Transaction failed") else .ok r

/-- `send_tx` of `scheduler.py`: `assert acct is not None, "PRIVATE_KEY
required"` runs first, before `build_transaction`; with an account present
the code builds and signs the transaction, broadcasts it and waits for the
receipt.  The first component is the trace of submission steps performed. -/
def send_tx (acct : Option Account) (w : TxWorld) : List Action × Except Err Receipt :=
  match acct with
  | none => ([], .error (.assertionError "PRIVATE_KEY required"))
  | some _ => ([.txBuild, .broadcastCall], txOutcome w)

/-- `send_tx` of `provider_client.py`: identical except that `acct` is a
module-level non-optional account and there is no assert. -/
def provider_send_tx (_acct : Account) (w : TxWorld) : List Action × Except Err Receipt :=
  ([.txBuild, .broadcastCall], txOutcome w)

/-- Pick the log line that a `try/except` around a `send_tx` call prints,
depending on whether the call returned or raised. -/
def logOf (okA errA : Action) (r : Except Err Receipt) : Action :=
  match r with
  | .ok _ => okA
  | .error _ => errA

/-- External-world inputs of one `process_job` call: the value of
`random.random()`, the ledger outcome of the audit transaction, the outcome
of the `escrow.functions.isFunded(job_id).call()` read, and the ledger
outcome of the assignment transaction. -/
structure JobWorld where
  draw : ℚ
  auditTx : TxWorld
  funding : Except Err Bool
  assignTx : TxWorld

/-- First block of `process_job`: `if random.random() < AUDIT_PROBABILITY:`
try to `send_tx(job_manager.functions.setJobAudit(job_id, True))`, printing
success or catching and logging failure. -/
def auditPart (p : ℚ) (acct : Option Account) (w : JobWorld) (jobId : Nat) : List Action :=
  if w.draw < p then
    let s := send_tx acct w.auditTx
    .auditAttempt jobId :: s.1 ++ [logOf (.logAuditEnabled jobId) (.logAuditFailed jobId) s.2]
  else []

/-- Last block of `process_job`: try to
`send_tx(job_manager.functions.assignJobToOptimalNode(job_id))`, printing
success or catching and logging failure. -/
def assignPart (acct : Option Account) (w : JobWorld) (jobId : Nat) : List Action :=
  let s := send_tx acct w.assignTx
  .assignAttempt jobId :: s.1 ++ [logOf (.logAssigned jobId) (.logAssignFailed jobId) s.2]

/-- `process_job` of `scheduler.py`.  After the audit block: if an escrow
contract is bound, call `isFunded(job_id)` inside a `try`; on a `False`
result log and `return`; on a raised exception the `except` only logs, and
control falls through to the assignment block (there is no `return` in the
handler); then the assignment block runs.  With no escrow bound the
assignment block runs directly. -/
def process_job (p : ℚ) (escrow : Option Unit) (acct : Option Account)
    (w : JobWorld) (jobId : Nat) : List Action :=
  auditPart p acct w jobId ++
    match escrow with
    | none => assignPart acct w jobId
    | some _ =>
      .isFundedCall jobId ::
        match w.funding with
        | .ok funded =>
          if funded then assignPart acct w jobId else [.logNotFunded jobId]
        | .error _ => .logEscrowCheckFailed jobId :: assignPart acct w jobId

/-- Recognizer for the escrow funding read in a trace. -/
def isFundedRead : Action → Bool
  | .isFundedCall _ => true
  | _ => false

/-- Recognizer for an audit-enable attempt (entering the
`send_tx(setJobAudit(...))` call) in a trace. -/
def isAuditAttempt : Action → Bool
  | .auditAttempt _ => true
  | _ => false

/-- Recognizer for the transaction-submission steps of `send_tx`
(building/signing and broadcasting a raw transaction). -/
def isTxStep : Action → Bool
  | .txBuild => true
  | .broadcastCall => true
  | _ => false

/-! ## Job discovery loop (`main` of `scheduler.py`) -/

/-- The immutable ledger: `chain b` is the list of `jobId`s of the
`JobCreated` events mined in block `b`, in log order. -/
def eventsIn (chain : Nat → List Nat) (lo n : Nat) : List (Nat × Nat) :=
  (List.range' lo n).flatMap fun b => (chain b).map fun j => (b, j)

/-- What one loop iteration observes of the outside world: the value of
`w3.eth.block_number` and whether the event fetch
(`create_filter`/`get_all_entries`) raises. -/
structure IterIn where
  current : Nat
  fetchOk : Bool
deriving DecidableEq

/-- One iteration of the `while True` body of `main` in `scheduler.py`:
read `current`; if `current >= last_block`, fetch all `JobCreated` events
in `[last_block, current]` and, for each, print the discovery line and call
`process_job`, then set `last_block = current + 1`.  A raised exception
anywhere in the fetch is caught by the iteration-level `except`, which logs
and leaves `last_block` unchanged.  Returns the new `last_block` and the
trace. -/
def scheduler_iteration (p : ℚ) (escrow : Option Unit) (acct : Option Account)
    (world : Nat → JobWorld) (chain : Nat → List Nat)
    (last_block : Nat) (inp : IterIn) : Nat × List Action :=
  if last_block ≤ inp.current then
    if inp.fetchOk then
      let evs := eventsIn chain last_block (inp.current + 1 - last_block)
      (inp.current + 1,
        evs.flatMap fun e => .discovered e.1 e.2 :: process_job p escrow acct (world e.2) e.2)
    else (last_block, [.logLoopError])
  else (last_block, [])

/-- A finite run of the discovery loop: fold `scheduler_iteration` over a
list of per-iteration observations, concatenating the traces. -/
def scheduler_run (p : ℚ) (escrow : Option Unit) (acct : Option Account)
    (world : Nat → JobWorld) (chain : Nat → List Nat) :
    Nat → List IterIn → Nat × List Action
  | lb, [] => (lb, [])
  | lb, inp :: rest =>
    let st := scheduler_iteration p escrow acct world chain lb inp
    let rs := scheduler_run p escrow acct world chain st.1 rest
    (rs.1, st.2 ++ rs.2)

/-- Project from a trace the events handed to the assignment policy:
each `discovered blk jobId` marks one `process_job(job_id)` call. -/
def deliveries (tr : List Action) : List (Nat × Nat) :=
  tr.filterMap fun a =>
    match a with
    | .discovered b j => some (b, j)
    | _ => none

/-! ## Escrow binding at scheduler start-up

`scheduler.py` line 13 runs `Web3.to_checksum_address(os.getenv("COMPUTE_ESCROW",
...))` and line 36 guards the escrow binding with
`if COMPUTE_ESCROW != Web3.to_checksum_address("0x0")`.
`Web3.to_checksum_address` delegates to `eth_utils.to_checksum_address`,
which first normalizes its argument and raises `ValueError` unless the
result is a `0x`-prefixed 40-hex-digit address; the checksum casing applied
to a valid address is kept abstract (it needs keccak). -/

/-- Hexadecimal digit test used by address validation. -/
def isHexDig (c : Char) : Bool :=
  c.isDigit || ('a' ≤ c && c ≤ 'f') || ('A' ≤ c && c ≤ 'F')

/-- Python `str.lower()`, character by character. -/
def strLower (s : String) : String :=
  ⟨s.data.map Char.toLower⟩

/-- Python `str.startswith("0x")`. -/
def startsWith0x (s : String) : Bool :=
  match s.data with
  | '0' :: 'x' :: _ => true
  | _ => false

/-- `eth_utils.add_0x_prefix`. -/
def add_0x (s : String) : String :=
  if startsWith0x s then s else "0x" ++ s

/-- `eth_utils.is_hex_address`: a `0x`-prefixed string of exactly 40
hexadecimal digits. -/
def is_hex_address (s : String) : Bool :=
  s.data.length = 42 && startsWith0x s && (s.data.drop 2).all isHexDig

/-- `eth_utils.to_normalized_address`: lowercase, ensure the `0x` prefix,
then raise `ValueError` unless the result is a hex address. -/
def to_normalized_address (s : String) : Except Err String :=
  let h := add_0x (strLower s)
  if is_hex_address h then .ok h else .error (.valueError "Unknown format")

/-- `eth_utils.to_checksum_address`: normalize, then re-case via the
keccak-based checksum function (abstract parameter `checksum`). -/
def to_checksum_address (checksum : String → String) (s : String) : Except Err String :=
  (to_normalized_address s).map checksum

/-- Module-level evaluation order of `scheduler.py` relevant to the escrow
binding: line 13 checksums the `COMPUTE_ESCROW` environment value, then
line 36 evaluates `escrow = w3.eth.contract(...) if COMPUTE_ESCROW !=
Web3.to_checksum_address("0x0") else None`.  An exception from either
checksum call aborts module initialization. -/
def escrow_binding (checksum : String → String) (computeEscrowEnv : String) :
    Except Err (Option Unit) := do
  let ce ← to_checksum_address checksum computeEscrowEnv
  let zero ← to_checksum_address checksum "0x0"
  pure (if ce ≠ zero then some () else none)

/-! ## Provider client (`provider_client.py`) -/

/-- Lowercase hexadecimal rendering of a 32-byte digest
(`result_hash.hex()`), left-padded to 64 digits. -/
def hex64 (h : Nat) : String :=
  let ds := Nat.toDigits 16 h
  ⟨List.replicate (64 - ds.length) '0' ++ ds⟩

/-- `json.dumps({"jobId": job_id, "timestamp": int(time.time())})` with
Python's default separators. -/
def jsonPayload (jobId t : Nat) : String :=
  "\x7b\"jobId\": " ++ toString jobId ++ ", \"timestamp\": " ++ toString t ++ "\x7d"

/-- `run_workload` of `provider_client.py`: hash the timestamped JSON
payload with `w3.keccak` (an external library function, passed in as
`keccak`) and build the pretend CID string embedding the job id and the
hash's hex; returns `(cid, result_hash)`.  It performs no fallible calls. -/
def run_workload (keccak : String → Nat) (t jobId : Nat) : String × Nat :=
  let payload := jsonPayload jobId t
  let result_hash := keccak payload
  ("cid://job-" ++ toString jobId ++ "-" ++ hex64 result_hash, result_hash)

/-- Actions of one pass of the `for job_id in jobs:` body of `main` in
`provider_client.py`: call `run_workload`, print the submission line, and
invoke `send_tx(completeJob(job_id, result_hash, cid))` with exactly those
values, performing its submission steps. -/
def providerHead (acct : Account) (keccak : String → Nat) (t : Nat)
    (txw : Nat → TxWorld) (j : Nat) : List Action :=
  Action.workloadRun j :: .logSubmitting j ::
    .completeAttempt j (run_workload keccak t j).2 (run_workload keccak t j).1 ::
    (provider_send_tx acct (txw j)).1

/-- The `for job_id in jobs:` loop of `main` in `provider_client.py`, run
sequentially.  There is no per-job `try`: a raised exception escapes the
`for` loop, so the remaining jobs are not reached; the escaping exception
is returned as the second component (`none` when the whole list was
processed). -/
def provider_process_jobs (acct : Account) (keccak : String → Nat) (t : Nat)
    (txw : Nat → TxWorld) : List Nat → List Action × Option Err
  | [] => ([], none)
  | j :: rest =>
    match (provider_send_tx acct (txw j)).2 with
    | .ok _ =>
      let tl := provider_process_jobs acct keccak t txw rest
      (providerHead acct keccak t txw j ++ tl.1, tl.2)
    | .error e => (providerHead acct keccak t txw j, some e)

/-- One iteration of the provider `while True` body: fetch the recommended
jobs (`getRecommendedJobs(NODE_ADDRESS).call()`, whose outcome is
`jobsFetch`), then process them; any exception — from the fetch or escaping
the `for` loop — reaches the iteration-level `except`, which logs. -/
def provider_iteration (acct : Account) (keccak : String → Nat) (t : Nat)
    (txw : Nat → TxWorld) (jobsFetch : Except Err (List Nat)) : List Action :=
  match jobsFetch with
  | .error _ => [.logLoopError]
  | .ok js =>
    match (provider_process_jobs acct keccak t txw js).2 with
    | none => (provider_process_jobs acct keccak t txw js).1
    | some _ => (provider_process_jobs acct keccak t txw js).1 ++ [.logLoopError]

/-! ## Supporting lemmas about traces -/

theorem send_trace_sub (acct : Option Account) (w : TxWorld) :
    (send_tx acct w).1 = [] ∨ (send_tx acct w).1 = [.txBuild, .broadcastCall] := by
  cases acct <;> simp [send_tx]

theorem logOf_cases (okA errA : Action) (r : Except Err Receipt) :
    logOf okA errA r = okA ∨ logOf okA errA r = errA := by
  cases r <;> simp [logOf]

theorem mem_auditPart {a : Action} {p : ℚ} {acct : Option Account} {w : JobWorld} {j : Nat}
    (h : a ∈ auditPart p acct w j) :
    a = .auditAttempt j ∨ a = .txBuild ∨ a = .broadcastCall ∨
      a = .logAuditEnabled j ∨ a = .logAuditFailed j := by
  unfold auditPart at h
  split at h
  · rcases List.mem_cons.1 h with h1 | h2
    · exact Or.inl h1
    rcases List.mem_append.1 h2 with h3 | h4
    · rcases send_trace_sub acct w.auditTx with hs | hs <;> rw [hs] at h3 <;> simp at h3
      rcases h3 with h3 | h3 <;> simp [h3]
    · simp at h4
      rcases logOf_cases (Action.logAuditEnabled j) (Action.logAuditFailed j)
          (send_tx acct w.auditTx).2 with hl | hl <;> rw [hl] at h4 <;> simp [h4]
  · simp at h

theorem mem_assignPart {a : Action} {acct : Option Account} {w : JobWorld} {j : Nat}
    (h : a ∈ assignPart acct w j) :
    a = .assignAttempt j ∨ a = .txBuild ∨ a = .broadcastCall ∨
      a = .logAssigned j ∨ a = .logAssignFailed j := by
  unfold assignPart at h
  rcases List.mem_cons.1 h with h1 | h2
  · exact Or.inl h1
  rcases List.mem_append.1 h2 with h3 | h4
  · rcases send_trace_sub acct w.assignTx with hs | hs <;> rw [hs] at h3 <;> simp at h3
    rcases h3 with h3 | h3 <;> simp [h3]
  · simp at h4
    rcases logOf_cases (Action.logAssigned j) (Action.logAssignFailed j)
        (send_tx acct w.assignTx).2 with hl | hl <;> rw [hl] at h4 <;> simp [h4]

theorem mem_process_job {a : Action} {p : ℚ} {esc : Option Unit} {acct : Option Account}
    {w : JobWorld} {j : Nat} (h : a ∈ process_job p esc acct w j) :
    a = .auditAttempt j ∨ a = .txBuild ∨ a = .broadcastCall ∨
      a = .logAuditEnabled j ∨ a = .logAuditFailed j ∨
      a = .isFundedCall j ∨ a = .logNotFunded j ∨ a = .logEscrowCheckFailed j ∨
      a = .assignAttempt j ∨ a = .logAssigned j ∨ a = .logAssignFailed j := by
  unfold process_job at h
  rcases List.mem_append.1 h with h1 | h2
  · rcases mem_auditPart h1 with h | h | h | h | h <;> simp [h]
  · cases esc with
    | none => rcases mem_assignPart h2 with h | h | h | h | h <;> simp [h]
    | some u =>
      rcases List.mem_cons.1 h2 with h3 | h4
      · simp [h3]
      cases hf : w.funding with
      | ok funded =>
        rw [hf] at h4
        dsimp only at h4
        by_cases hb : funded
        · rw [if_pos hb] at h4
          rcases mem_assignPart h4 with h | h | h | h | h <;> simp [h]
        · rw [if_neg hb] at h4
          simp at h4
          simp [h4]
      | error e =>
        rw [hf] at h4
        dsimp only at h4
        rcases List.mem_cons.1 h4 with h5 | h6
        · simp [h5]
        · rcases mem_assignPart h6 with h | h | h | h | h <;> simp [h]

theorem auditPart_none (p : ℚ) (w : JobWorld) (j : Nat) :
    auditPart p none w j = if w.draw < p then [.auditAttempt j, .logAuditFailed j] else [] := rfl

theorem assignPart_none (w : JobWorld) (j : Nat) :
    assignPart none w j = [.assignAttempt j, .logAssignFailed j] := rfl

theorem mem_process_job_none {a : Action} {p : ℚ} {esc : Option Unit}
    {w : JobWorld} {j : Nat} (h : a ∈ process_job p esc none w j) :
    a = .auditAttempt j ∨ a = .logAuditFailed j ∨
      a = .isFundedCall j ∨ a = .logNotFunded j ∨ a = .logEscrowCheckFailed j ∨
      a = .assignAttempt j ∨ a = .logAssignFailed j := by
  unfold process_job at h
  rw [auditPart_none] at h
  rcases List.mem_append.1 h with h1 | h2
  · split at h1 <;> simp at h1
    rcases h1 with h1 | h1 <;> simp [h1]
  · cases esc with
    | none => rw [assignPart_none] at h2; simp at h2; rcases h2 with h2 | h2 <;> simp [h2]
    | some u =>
      rcases List.mem_cons.1 h2 with h3 | h4
      · simp [h3]
      cases hf : w.funding with
      | ok funded =>
        rw [hf] at h4
        dsimp only at h4
        by_cases hb : funded
        · rw [if_pos hb, assignPart_none] at h4
          simp at h4
          rcases h4 with h4 | h4 <;> simp [h4]
        · rw [if_neg hb] at h4
          simp at h4
          simp [h4]
      | error e =>
        rw [hf] at h4
        dsimp only at h4
        rw [assignPart_none] at h4
        simp at h4
        rcases h4 with h4 | h4 | h4 <;> simp [h4]

theorem deliveries_append (l₁ l₂ : List Action) :
    deliveries (l₁ ++ l₂) = deliveries l₁ ++ deliveries l₂ := by
  simp [deliveries]

theorem deliveries_process_job (p : ℚ) (esc : Option Unit) (acct : Option Account)
    (w : JobWorld) (j : Nat) : deliveries (process_job p esc acct w j) = [] := by
  unfold deliveries
  rw [List.filterMap_eq_nil_iff]
  intro a ha
  rcases mem_process_job ha with h | h | h | h | h | h | h | h | h | h | h <;> simp [h]

/-! ## Lemmas about the discovery loop -/

theorem eventsIn_zero (chain : Nat → List Nat) (lo : Nat) : eventsIn chain lo 0 = [] := rfl

theorem eventsIn_append (chain : Nat → List Nat) (lo n m : Nat) :
    eventsIn chain lo n ++ eventsIn chain (lo + n) m = eventsIn chain lo (n + m) := by
  unfold eventsIn
  rw [← List.flatMap_append, List.range'_append_1, Nat.add_comm m n]

theorem fst_mem_eventsIn {chain : Nat → List Nat} {lo n : Nat} {x : Nat × Nat}
    (h : x ∈ eventsIn chain lo n) : lo ≤ x.1 ∧ x.1 < lo + n := by
  simp only [eventsIn, List.mem_flatMap, List.mem_map, List.mem_range'_1] at h
  rcases h with ⟨b, hb, j, _, hx⟩
  rw [← hx]
  exact ⟨hb.1, hb.2⟩

theorem eventsIn_pairwise (chain : Nat → List Nat) (lo n : Nat) :
    (eventsIn chain lo n).Pairwise (fun x y => x.1 ≤ y.1) := by
  induction n generalizing lo with
  | zero => simp [eventsIn]
  | succ n ih =>
    have hsplit : eventsIn chain lo (n + 1)
        = ((chain lo).map fun j => (lo, j)) ++ eventsIn chain (lo + 1) n := by
      unfold eventsIn
      rw [List.range'_succ]
      simp
    rw [hsplit, List.pairwise_append]
    refine ⟨?_, ih (lo + 1), ?_⟩
    · rw [List.pairwise_map]
      exact List.pairwise_of_forall fun _ _ => le_refl lo
    · intro x hx y hy
      rcases List.mem_map.1 hx with ⟨j, _, hx1⟩
      have := (fst_mem_eventsIn hy).1
      rw [← hx1]
      omega

theorem deliveries_flatMap_discovered (p : ℚ) (esc : Option Unit) (acct : Option Account)
    (world : Nat → JobWorld) (evs : List (Nat × Nat)) :
    deliveries (evs.flatMap fun e =>
        .discovered e.1 e.2 :: process_job p esc acct (world e.2) e.2) = evs := by
  induction evs with
  | nil => rfl
  | cons e t ih =>
    rw [List.flatMap_cons, deliveries_append]
    have hhd : deliveries (Action.discovered e.1 e.2 :: process_job p esc acct (world e.2) e.2)
        = [e] := by
      unfold deliveries
      rw [List.filterMap_cons]
      have := deliveries_process_job p esc acct (world e.2) e.2
      unfold deliveries at this
      simp [this]
    rw [hhd, ih]
    rfl

theorem iteration_fst (p : ℚ) (esc : Option Unit) (acct : Option Account)
    (world : Nat → JobWorld) (chain : Nat → List Nat) (lb : Nat) (inp : IterIn) :
    (scheduler_iteration p esc acct world chain lb inp).1
      = if lb ≤ inp.current ∧ inp.fetchOk = true then inp.current + 1 else lb := by
  unfold scheduler_iteration
  by_cases h1 : lb ≤ inp.current
  · cases h2 : inp.fetchOk <;> simp [h1, h2]
  · simp [h1]

theorem deliveries_iteration (p : ℚ) (esc : Option Unit) (acct : Option Account)
    (world : Nat → JobWorld) (chain : Nat → List Nat) (lb : Nat) (inp : IterIn) :
    deliveries (scheduler_iteration p esc acct world chain lb inp).2
      = eventsIn chain lb ((scheduler_iteration p esc acct world chain lb inp).1 - lb) := by
  unfold scheduler_iteration
  by_cases h1 : lb ≤ inp.current
  · cases h2 : inp.fetchOk
    · simp [h1, h2, deliveries, eventsIn]
    · simp only [h1, h2, if_true, and_true, if_pos]
      rw [deliveries_flatMap_discovered]
  · simp [h1, deliveries, eventsIn]

theorem iteration_fst_le (p : ℚ) (esc : Option Unit) (acct : Option Account)
    (world : Nat → JobWorld) (chain : Nat → List Nat) (lb : Nat) (inp : IterIn) :
    lb ≤ (scheduler_iteration p esc acct world chain lb inp).1 := by
  rw [iteration_fst]
  split <;> omega

theorem run_fst_le (p : ℚ) (esc : Option Unit) (acct : Option Account)
    (world : Nat → JobWorld) (chain : Nat → List Nat) (lb : Nat) (inputs : List IterIn) :
    lb ≤ (scheduler_run p esc acct world chain lb inputs).1 := by
  induction inputs generalizing lb with
  | nil => simp [scheduler_run]
  | cons inp rest ih =>
    unfold scheduler_run
    exact le_trans (iteration_fst_le p esc acct world chain lb inp) (ih _)

theorem eventsIn_glue (chain : Nat → List Nat) {lo mid hi : Nat}
    (h1 : lo ≤ mid) (h2 : mid ≤ hi) :
    eventsIn chain lo (mid - lo) ++ eventsIn chain mid (hi - mid)
      = eventsIn chain lo (hi - lo) := by
  obtain ⟨n, rfl⟩ := Nat.exists_eq_add_of_le h1
  obtain ⟨m, rfl⟩ := Nat.exists_eq_add_of_le h2
  have e1 : lo + n - lo = n := by omega
  have e2 : lo + n + m - (lo + n) = m := by omega
  have e3 : lo + n + m - lo = n + m := by omega
  rw [e1, e2, e3, eventsIn_append]

/-! ## Lemmas about the provider loop -/

theorem workloadRun_mem_jobs {acct : Account} {keccak : String → Nat} {t : Nat}
    {txw : Nat → TxWorld} {k : Nat} {js : List Nat}
    (h : Action.workloadRun k ∈ (provider_process_jobs acct keccak t txw js).1) : k ∈ js := by
  induction js with
  | nil => simp [provider_process_jobs] at h
  | cons j rest ih =>
    cases hs : (provider_send_tx acct (txw j)).2 with
    | ok r =>
      simp only [provider_process_jobs, hs] at h
      rcases List.mem_append.1 h with h1 | h1
      · simp only [providerHead, provider_send_tx, List.mem_cons] at h1
        rcases h1 with h1 | h1 | h1 | h1 <;> simp_all
      · exact List.mem_cons_of_mem _ (ih h1)
    | error e =>
      simp only [provider_process_jobs, hs] at h
      simp only [providerHead, provider_send_tx, List.mem_cons] at h
      rcases h with h | h | h | h <;> simp_all

theorem ppj_snip {acct : Account} {keccak : String → Nat} {t : Nat} {txw : Nat → TxWorld}
    (pre : List Nat) (j : Nat) (post : List Nat)
    (hpre : ∀ k ∈ pre, ∃ r, (provider_send_tx acct (txw k)).2 = .ok r)
    (hj : ∃ e, (provider_send_tx acct (txw j)).2 = .error e) :
    provider_process_jobs acct keccak t txw (pre ++ j :: post)
      = provider_process_jobs acct keccak t txw (pre ++ [j]) := by
  induction pre with
  | nil =>
    rcases hj with ⟨e, he⟩
    simp [provider_process_jobs, he]
  | cons k pre' ih =>
    rcases hpre k (by simp) with ⟨r, hk⟩
    simp only [List.cons_append, provider_process_jobs, hk]
    simp only [List.append_eq]
    rw [ih (fun x hx => hpre x (by simp [hx]))]

theorem run_deliveries (p : ℚ) (esc : Option Unit) (acct : Option Account)
    (world : Nat → JobWorld) (chain : Nat → List Nat) (c0 : Nat) (inputs : List IterIn) :
    deliveries (scheduler_run p esc acct world chain c0 inputs).2
      = eventsIn chain c0 ((scheduler_run p esc acct world chain c0 inputs).1 - c0) := by
  induction inputs generalizing c0 with
  | nil => simp [scheduler_run, eventsIn, deliveries]
  | cons inp rest ih =>
    have hshape :
        scheduler_run p esc acct world chain c0 (inp :: rest)
          = ((scheduler_run p esc acct world chain
                (scheduler_iteration p esc acct world chain c0 inp).1 rest).1,
             (scheduler_iteration p esc acct world chain c0 inp).2
               ++ (scheduler_run p esc acct world chain
                    (scheduler_iteration p esc acct world chain c0 inp).1 rest).2) := rfl
    rw [hshape]
    rw [deliveries_append, deliveries_iteration, ih]
    exact eventsIn_glue chain (iteration_fst_le p esc acct world chain c0 inp)
      (run_fst_le p esc acct world chain _ rest)

/-! ## Counting lemmas -/

theorem process_job_none_escrow (p : ℚ) (acct : Option Account) (w : JobWorld) (j : Nat) :
    process_job p none acct w j = auditPart p acct w j ++ assignPart acct w j := rfl

theorem countP_auditPart (p : ℚ) (acct : Option Account) (w : JobWorld) (j : Nat) :
    (auditPart p acct w j).countP isAuditAttempt = if w.draw < p then 1 else 0 := by
  unfold auditPart
  split
  · dsimp only
    have h1 : ((send_tx acct w.auditTx).1).countP isAuditAttempt = 0 := by
      rw [List.countP_eq_zero]
      intro a ha
      rcases send_trace_sub acct w.auditTx with hs | hs <;> rw [hs] at ha <;> simp at ha
      rcases ha with ha | ha <;> simp [ha, isAuditAttempt]
    have h2 : ([logOf (Action.logAuditEnabled j) (Action.logAuditFailed j)
        (send_tx acct w.auditTx).2]).countP isAuditAttempt = 0 := by
      rcases logOf_cases (Action.logAuditEnabled j) (Action.logAuditFailed j)
          (send_tx acct w.auditTx).2 with hl | hl <;> rw [hl] <;> simp [isAuditAttempt]
    rw [List.countP_append, List.countP_cons, h1, h2]
    simp [isAuditAttempt]
  · rfl

theorem not_auditAttempt_assignPart {a : Action} {acct : Option Account} {w : JobWorld}
    {j : Nat} (h : a ∈ assignPart acct w j) : isAuditAttempt a = false := by
  rcases mem_assignPart h with h1 | h1 | h1 | h1 | h1 <;> simp [h1, isAuditAttempt]

theorem countP_audit_process (p : ℚ) (esc : Option Unit) (acct : Option Account)
    (w : JobWorld) (j : Nat) :
    (process_job p esc acct w j).countP isAuditAttempt = if w.draw < p then 1 else 0 := by
  have hassign : (assignPart acct w j).countP isAuditAttempt = 0 := by
    rw [List.countP_eq_zero]
    intro a ha
    simp [not_auditAttempt_assignPart ha]
  cases esc with
  | none =>
    rw [process_job_none_escrow, List.countP_append, countP_auditPart, hassign]
    simp
  | some u =>
    have hshape : process_job p (some u) acct w j
        = auditPart p acct w j ++ (Action.isFundedCall j ::
            match w.funding with
            | .ok funded => if funded then assignPart acct w j else [.logNotFunded j]
            | .error _ => .logEscrowCheckFailed j :: assignPart acct w j) := rfl
    rw [hshape, List.countP_append, countP_auditPart, List.countP_cons]
    have hrest : (match w.funding with
        | .ok funded => if funded then assignPart acct w j else [Action.logNotFunded j]
        | .error _ => Action.logEscrowCheckFailed j :: assignPart acct w j).countP
          isAuditAttempt = 0 := by
      cases hf : w.funding with
      | ok funded =>
        by_cases hb : funded <;> simp [hb, hassign, isAuditAttempt]
      | error e =>
        rw [List.countP_cons, hassign]
        simp [isAuditAttempt]
    rw [hrest]
    simp [isAuditAttempt]

/-! ## Claim theorems -/

/-- C1.  The claim states that when the escrow funding read raises,
`process_job` aborts fail-closed with no `assignJobToOptimalNode` intent.
The code does the opposite: its `except` handler only logs and control
falls through to the assignment block.  Concretely, with audit probability
0, an escrow configured, a signing account present and `isFunded(7)`
raising a connection error, the call logs the escrow failure and still
attempts (and here completes) the assignment transaction for job 7. -/
theorem C1_escrow_error_falls_through :
    process_job 0 (some ()) (some ⟨0⟩)
        ⟨mkRat 1 2, .mined ⟨1, 0⟩, .error (.connectionError "escrow RPC unreachable"),
          .mined ⟨1, 0⟩⟩ 7
      = [.isFundedCall 7, .logEscrowCheckFailed 7, .assignAttempt 7, .txBuild, .broadcastCall,
          .logAssigned 7]
    ∧ Action.assignAttempt 7 ∈ process_job 0 (some ()) (some ⟨0⟩)
        ⟨mkRat 1 2, .mined ⟨1, 0⟩, .error (.connectionError "escrow RPC unreachable"),
          .mined ⟨1, 0⟩⟩ 7 := by
  constructor
  · decide
  · decide

/-- C7.  If no escrow collaborator is configured (`escrow is None`),
`process_job` never performs the `isFunded` read and attempts the
`assignJobToOptimalNode` intent exactly once, for every audit probability,
account configuration and external-world outcome. -/
theorem C7_no_escrow_always_assigns (p : ℚ) (acct : Option Account) (w : JobWorld) (j : Nat) :
    (process_job p none acct w j).countP isFundedRead = 0
    ∧ (process_job p none acct w j).count (Action.assignAttempt j) = 1 := by
  constructor
  · rw [List.countP_eq_zero]
    intro a ha
    rw [process_job_none_escrow] at ha
    rcases List.mem_append.1 ha with h | h
    · rcases mem_auditPart h with h1 | h1 | h1 | h1 | h1 <;> simp [h1, isFundedRead]
    · rcases mem_assignPart h with h1 | h1 | h1 | h1 | h1 <;> simp [h1, isFundedRead]
  · rw [process_job_none_escrow, List.count_append]
    have h1 : (auditPart p acct w j).count (Action.assignAttempt j) = 0 := by
      rw [List.count_eq_zero]
      intro h
      rcases mem_auditPart h with h1 | h1 | h1 | h1 | h1 <;> simp at h1
    have h2 : (assignPart acct w j).count (Action.assignAttempt j) = 1 := by
      unfold assignPart
      dsimp only
      have h3 : ((send_tx acct w.assignTx).1).count (Action.assignAttempt j) = 0 := by
        rw [List.count_eq_zero]
        intro h
        rcases send_trace_sub acct w.assignTx with hs | hs <;> rw [hs] at h <;> simp at h
      have h4 : ([logOf (Action.logAssigned j) (Action.logAssignFailed j)
          (send_tx acct w.assignTx).2]).count (Action.assignAttempt j) = 0 := by
        rw [List.count_eq_zero]
        intro h
        simp at h
        rcases logOf_cases (Action.logAssigned j) (Action.logAssignFailed j)
            (send_tx acct w.assignTx).2 with hl | hl <;> rw [hl] at h <;> simp at h
      rw [List.count_append, List.count_cons_self, h3, h4]
    rw [h1, h2]

/-- C8.  Audit sampling in `process_job` compares the uniform draw strictly
against the configured probability: an audit-enable intent is attempted
exactly when `draw < p` (hence exactly once per processed job in that
case).  With `p = 0` and a draw in `[0, 1)` no audit intent is ever
attempted; with `p = 1` every processed job gets exactly one audit-enable
attempt. -/
theorem C8_audit_sampling (p : ℚ) (esc : Option Unit) (acct : Option Account)
    (w : JobWorld) (j : Nat) :
    ((process_job p esc acct w j).countP isAuditAttempt = if w.draw < p then 1 else 0)
    ∧ (0 ≤ w.draw → (process_job 0 esc acct w j).countP isAuditAttempt = 0)
    ∧ (w.draw < 1 → (process_job 1 esc acct w j).countP isAuditAttempt = 1) := by
  refine ⟨countP_audit_process p esc acct w j, ?_, ?_⟩
  · intro h0
    rw [countP_audit_process, if_neg (not_lt.2 h0)]
  · intro h1
    rw [countP_audit_process, if_pos h1]

/-- Closed witness for C8 at audit probabilities 0 and 1 with the concrete
draw 1/2. -/
theorem C8_audit_sampling_witness :
    (process_job 0 none none ⟨mkRat 1 2, .mined ⟨1, 0⟩, .ok true, .mined ⟨1, 0⟩⟩ 3).countP
        isAuditAttempt = 0
    ∧ (process_job 1 none none ⟨mkRat 1 2, .mined ⟨1, 0⟩, .ok true, .mined ⟨1, 0⟩⟩ 3).countP
        isAuditAttempt = 1 :=
  ⟨(C8_audit_sampling 0 none none ⟨mkRat 1 2, .mined ⟨1, 0⟩, .ok true, .mined ⟨1, 0⟩⟩ 3).2.1
      (by decide),
   (C8_audit_sampling 1 none none ⟨mkRat 1 2, .mined ⟨1, 0⟩, .ok true, .mined ⟨1, 0⟩⟩ 3).2.2
      (by decide)⟩

/-- Ledger behavior used by the C2 counterexample and witness: the
completion transaction of job 1 is rejected at broadcast; every other job's
transaction mines successfully. -/
def cw_txw : Nat → TxWorld :=
  fun jj => if jj = 1 then .rejected (.valueError "insufficient funds") else .mined ⟨1, 0⟩

/-- C2, counterexample.  The claim — a single job's failure does not
prevent attempting the subsequent jobs of the same provider iteration — is
false: with recommended jobs `[1, 2]` and job 1's completion submission
rejected, job 2's workload is never run in that iteration, because the
`try` in `provider_client.py` wraps the whole `for` loop rather than each
job. -/
theorem C2_per_job_isolation_counterexample :
    ¬ (∀ (acct : Account) (keccak : String → Nat) (t : Nat) (txw : Nat → TxWorld)
        (js : List Nat) (k : Nat), k ∈ js →
          Action.workloadRun k ∈ provider_iteration acct keccak t txw (.ok js)) := by
  intro h
  have h2 := h ⟨0⟩ (fun _ => 0) 0 cw_txw [1, 2] 2 (by decide)
  exact absurd h2 (by decide)

/-- C2, amended.  In the provider loop a job's submission failure is caught
only by the iteration-level handler: processing stops at the first failing
job, so the iteration's trace is identical whatever jobs follow it, and no
later job of that iteration has its workload run; the remaining jobs are
only retried on the next iteration, when the recommendation list is
re-read. -/
theorem C2_failure_aborts_iteration (acct : Account) (keccak : String → Nat) (t : Nat)
    (txw : Nat → TxWorld) (pre : List Nat) (j : Nat) (post : List Nat)
    (hpre : ∀ k ∈ pre, ∃ r, (provider_send_tx acct (txw k)).2 = .ok r)
    (hj : ∃ e, (provider_send_tx acct (txw j)).2 = .error e) :
    provider_iteration acct keccak t txw (.ok (pre ++ j :: post))
      = provider_iteration acct keccak t txw (.ok (pre ++ [j]))
    ∧ ∀ k ∈ post, k ∉ pre → k ≠ j →
        Action.workloadRun k ∉ provider_iteration acct keccak t txw (.ok (pre ++ j :: post)) := by
  have hsnip := @ppj_snip acct keccak t txw pre j post hpre hj
  have heq : provider_iteration acct keccak t txw (.ok (pre ++ j :: post))
      = provider_iteration acct keccak t txw (.ok (pre ++ [j])) := by
    unfold provider_iteration
    dsimp only
    rw [hsnip]
  refine ⟨heq, ?_⟩
  intro k hk hk1 hk2 hmem
  rw [heq] at hmem
  have hk3 : k ∈ pre ++ [j] := by
    unfold provider_iteration at hmem
    dsimp only at hmem
    cases hr : (provider_process_jobs acct keccak t txw (pre ++ [j])).2 with
    | none =>
      simp only [hr] at hmem
      exact workloadRun_mem_jobs hmem
    | some e =>
      simp only [hr] at hmem
      rcases List.mem_append.1 hmem with h5 | h5
      · exact workloadRun_mem_jobs h5
      · simp at h5
  rcases List.mem_append.1 hk3 with h6 | h6
  · exact hk1 h6
  · simp at h6
    exact hk2 h6

/-- Closed witness for C2's amended theorem: with jobs `[1, 2]` and job 1's
submission rejected, the iteration trace equals the trace of the
one-job list `[1]`. -/
theorem C2_failure_aborts_iteration_witness :
    provider_iteration ⟨0⟩ (fun _ => 0) 0 cw_txw (.ok [1, 2])
      = provider_iteration ⟨0⟩ (fun _ => 0) 0 cw_txw (.ok [1]) :=
  (C2_failure_aborts_iteration ⟨0⟩ (fun _ => 0) 0 cw_txw [] 1 [2]
    (by simp) ⟨.valueError "insufficient funds", rfl⟩).1

/-- C3.  For every `COMPUTE_ESCROW` value and every checksum casing
function, evaluating the scheduler's module-level escrow binding raises
(`to_checksum_address("0x0")` rejects the 3-character string `"0x0"`, and
an invalid `COMPUTE_ESCROW` is rejected one line earlier), so no run ever
reaches the discovery loop with `escrow = None`; and whenever `process_job`
runs with an escrow configured it performs the funding read. -/
theorem C3_escrow_never_none (checksum : String → String) (env : String) :
    (escrow_binding checksum env).isOk = false
    ∧ ∀ (p : ℚ) (acct : Option Account) (w : JobWorld) (j : Nat),
        Action.isFundedCall j ∈ process_job p (some ()) acct w j := by
  constructor
  · have hz : to_checksum_address checksum "0x0" = .error (.valueError "Unknown format") := by
      have hn : to_normalized_address "0x0" = .error (.valueError "Unknown format") := by decide
      unfold to_checksum_address
      rw [hn]
      rfl
    unfold escrow_binding
    cases hc : to_checksum_address checksum env with
    | error e => simp [hc, Except.isOk, Except.toBool, Except.instMonad, Except.bind]
    | ok ce => simp [hc, hz, Except.isOk, Except.toBool, Except.instMonad, Except.bind]
  · intro p acct w j
    unfold process_job
    exact List.mem_append.2 (Or.inr (List.mem_cons_self _ _))

/-- Constructor tag of a raised error, used to state error uniformity. -/
def errTag : Err → Nat
  | .valueError _ => 0
  | .timeExhausted _ => 1
  | .runtimeError _ => 2
  | .assertionError _ => 3
  | .connectionError _ => 4

/-- C4, counterexample.  The claim that `send_tx` raises a single uniform
error type on every failure path is false: a broadcast rejection propagates
the client's `ValueError` unchanged, while an included-but-failed receipt
raises `RuntimeError('Transaction failed')` — two different error shapes. -/
theorem C4_uniform_error_counterexample :
    ¬ (∀ (a : Account) (w w' : TxWorld) (e e' : Err),
        (send_tx (some a) w).2 = .error e → (send_tx (some a) w').2 = .error e' →
        errTag e = errTag e') := by
  intro h
  have h2 := h ⟨0⟩ (.rejected (.valueError "nonce too low")) (.mined ⟨0, 0⟩)
    (.valueError "nonce too low") (.runtimeError "Transaction failed") rfl (by decide)
  exact absurd h2 (by decide)

/-- C4, amended.  `send_tx` (in both files) returns the receipt exactly
when the transaction is included with status 1 and raises on every failure
path, but not uniformly: broadcast rejection and receipt-wait timeout
propagate the underlying client exception unchanged, while an
included-but-failed receipt raises `RuntimeError('Transaction failed')`
carrying no underlying cause. -/
theorem C4_send_tx_failure_paths (a : Account) (w : TxWorld) :
    ((∃ r, (send_tx (some a) w).2 = .ok r) ↔ (∃ r, w = .mined r ∧ r.status = 1))
    ∧ (∀ e, w = .rejected e → (send_tx (some a) w).2 = .error e)
    ∧ (∀ e, w = .timedOut e → (send_tx (some a) w).2 = .error e)
    ∧ (∀ r, w = .mined r → r.status ≠ 1 →
        (send_tx (some a) w).2 = .error (.runtimeError "Transaction failed"))
    ∧ (∀ r, w = .mined r → r.status = 1 → (send_tx (some a) w).2 = .ok r)
    ∧ (provider_send_tx a w).2 = (send_tx (some a) w).2 := by
  refine ⟨?_, ?_, ?_, ?_, ?_, rfl⟩
  · constructor
    · rintro ⟨r, hr⟩
      cases w with
      | rejected e => simp [send_tx, txOutcome] at hr
      | timedOut e => simp [send_tx, txOutcome] at hr
      | mined rc =>
        refine ⟨rc, rfl, ?_⟩
        by_cases hs : rc.status = 1
        · exact hs
        · simp [send_tx, txOutcome, hs] at hr
    · rintro ⟨r, rfl, hs⟩
      exact ⟨r, by simp [send_tx, txOutcome, hs]⟩
  · rintro e rfl
    rfl
  · rintro e rfl
    rfl
  · rintro r rfl hs
    simp [send_tx, txOutcome, hs]
  · rintro r rfl hs
    simp [send_tx, txOutcome, hs]

/-- Closed witness for C4's amended theorem: a rejected broadcast
propagates the client error unchanged, and a status-1 receipt is
returned. -/
theorem C4_send_tx_failure_paths_witness :
    (send_tx (some ⟨0⟩) (.rejected (.valueError "nonce too low"))).2
        = .error (.valueError "nonce too low")
    ∧ (send_tx (some ⟨0⟩) (.mined ⟨1, 9⟩)).2 = .ok ⟨1, 9⟩ :=
  ⟨(C4_send_tx_failure_paths ⟨0⟩ (.rejected (.valueError "nonce too low"))).2.1
      (.valueError "nonce too low") rfl,
   (C4_send_tx_failure_paths ⟨0⟩ (.mined ⟨1, 9⟩)).2.2.2.2.1 ⟨1, 9⟩ rfl rfl⟩

/-- C5.  If the event fetch for `[last_block, current]` raises, the cursor
is left unchanged — so the next fetching iteration scans a range starting
from the very same cursor — and in general the cursor moves to
`current + 1` exactly when the chain has reached the cursor and the scan of
the range completed without error. -/
theorem C5_cursor_on_fetch_error (p : ℚ) (esc : Option Unit) (acct : Option Account)
    (world : Nat → JobWorld) (chain : Nat → List Nat) (lb : Nat) (inp : IterIn) :
    (inp.fetchOk = false → (scheduler_iteration p esc acct world chain lb inp).1 = lb)
    ∧ ((scheduler_iteration p esc acct world chain lb inp).1
        = if lb ≤ inp.current ∧ inp.fetchOk = true then inp.current + 1 else lb)
    ∧ (∀ inp₂ : IterIn, inp.fetchOk = false → inp₂.fetchOk = true → lb ≤ inp₂.current →
        deliveries (scheduler_iteration p esc acct world chain
            (scheduler_iteration p esc acct world chain lb inp).1 inp₂).2
          = eventsIn chain lb (inp₂.current + 1 - lb)) := by
  have hfst := iteration_fst p esc acct world chain lb inp
  refine ⟨?_, hfst, ?_⟩
  · intro h
    rw [hfst]
    simp [h]
  · intro inp₂ h1 h2 h3
    have h0 : (scheduler_iteration p esc acct world chain lb inp).1 = lb := by
      rw [hfst]
      simp [h1]
    rw [h0, deliveries_iteration, iteration_fst]
    simp [h2, h3]

/-- Closed witness for C5: a failed fetch at cursor 5 leaves the cursor at
5, and the following successful iteration at chain height 7 delivers
exactly the events of blocks 5, 6 and 7. -/
theorem C5_cursor_on_fetch_error_witness :
    ((scheduler_iteration 0 none none (fun _ => ⟨1, .mined ⟨1, 0⟩, .ok true, .mined ⟨1, 0⟩⟩)
        (fun b => [b]) 5 ⟨7, false⟩).1 = 5)
    ∧ deliveries (scheduler_iteration 0 none none
          (fun _ => ⟨1, .mined ⟨1, 0⟩, .ok true, .mined ⟨1, 0⟩⟩) (fun b => [b])
          (scheduler_iteration 0 none none
            (fun _ => ⟨1, .mined ⟨1, 0⟩, .ok true, .mined ⟨1, 0⟩⟩) (fun b => [b]) 5
            ⟨7, false⟩).1 ⟨7, true⟩).2
        = eventsIn (fun b => [b]) 5 (7 + 1 - 5) :=
  ⟨(C5_cursor_on_fetch_error 0 none none (fun _ => ⟨1, .mined ⟨1, 0⟩, .ok true, .mined ⟨1, 0⟩⟩)
      (fun b => [b]) 5 ⟨7, false⟩).1 rfl,
   (C5_cursor_on_fetch_error 0 none none (fun _ => ⟨1, .mined ⟨1, 0⟩, .ok true, .mined ⟨1, 0⟩⟩)
      (fun b => [b]) 5 ⟨7, false⟩).2.2 ⟨7, true⟩ rfl rfl (by decide)⟩

/-- C6.  Over any finite run of the discovery loop, whatever mix of
too-low chain heights, failed fetches and successful scans occurs, the
events handed to `process_job` are exactly the canonical enumeration of
blocks `[c0, final cursor)` of the ledger, each block once, in ascending
block order: successful scans cover disjoint consecutive ranges
`[cursor, current]`, `[current + 1, ...]`, so each `JobCreated` event is
delivered exactly once and never reprocessed once the cursor has advanced
past its containing block. -/
theorem C6_exactly_once_in_order (p : ℚ) (esc : Option Unit) (acct : Option Account)
    (world : Nat → JobWorld) (chain : Nat → List Nat) (c0 : Nat) (inputs : List IterIn) :
    deliveries (scheduler_run p esc acct world chain c0 inputs).2
      = eventsIn chain c0 ((scheduler_run p esc acct world chain c0 inputs).1 - c0)
    ∧ (deliveries (scheduler_run p esc acct world chain c0 inputs).2).Pairwise
        (fun x y => x.1 ≤ y.1) := by
  refine ⟨run_deliveries p esc acct world chain c0 inputs, ?_⟩
  rw [run_deliveries p esc acct world chain c0 inputs]
  exact eventsIn_pairwise chain c0 _

/-- C9.  With no signing key (`acct = None`): every scheduler `send_tx`
call fails its assert before building a transaction, performing no
submission step; the discovery iteration still advances the cursor exactly
as usual, still delivers every fetched event to `process_job`, and its
whole trace contains no transaction-build or broadcast step. -/
theorem C9_no_signing_key (p : ℚ) (esc : Option Unit) (world : Nat → JobWorld)
    (chain : Nat → List Nat) (lb : Nat) (inp : IterIn) (w : TxWorld) :
    send_tx none w = ([], .error (.assertionError "PRIVATE_KEY required"))
    ∧ (scheduler_iteration p esc none world chain lb inp).1
        = (if lb ≤ inp.current ∧ inp.fetchOk = true then inp.current + 1 else lb)
    ∧ deliveries (scheduler_iteration p esc none world chain lb inp).2
        = (if lb ≤ inp.current ∧ inp.fetchOk = true
            then eventsIn chain lb (inp.current + 1 - lb) else [])
    ∧ (scheduler_iteration p esc none world chain lb inp).2.countP isTxStep = 0 := by
  refine ⟨rfl, iteration_fst p esc none world chain lb inp, ?_, ?_⟩
  · rw [deliveries_iteration, iteration_fst]
    split
    · rfl
    · rw [Nat.sub_self]
      rfl
  · unfold scheduler_iteration
    by_cases h1 : lb ≤ inp.current
    · cases h2 : inp.fetchOk
      · simp [h1, h2, isTxStep]
      · simp only [h1, h2, if_true, and_true, if_pos]
        rw [List.countP_eq_zero]
        intro a ha
        rcases List.mem_flatMap.1 ha with ⟨e, _, hmem⟩
        rcases List.mem_cons.1 hmem with h3 | h3
        · simp [h3, isTxStep]
        · rcases mem_process_job_none h3 with h | h | h | h | h | h | h <;> simp [h, isTxStep]
    · simp [h1]

end Tachyon
